import Mathlib

/-!
Verification of the genetic-algorithm engine in `geneticAlgo.py`.

The source operates on numpy arrays of real numbers; the embedding uses `ℚ`
for array entries and `List` for arrays.  Randomness (`np.random.randint`,
`np.random.uniform`) is modelled by explicit oracle arguments: a column
choice stream and a stream of unit-interval samples `u`, with
`np.random.uniform(low, high)` embedded as `low + (high - low) * u`
(numpy draws from the half-open interval `[low, high)`, i.e. `0 ≤ u < 1`).
A function with no oracle argument (such as `crossover`) is deterministic
by construction, mirroring the absence of random calls in its source.

Numpy dtype behaviour that the claims depend on is modelled explicitly:
a fitness vector carries an `isInt` flag because the fresh-run code
creates `fitness = np.array([0 for k in range(num_solutions)])` — an
integer array — and numpy slice assignment of float results into an
integer array truncates each value toward zero (C cast).
-/

namespace GeneticAlgo

/-- Truncation toward zero of a rational, as a C float→int cast performs
(numpy's behaviour when assigning float results into an int64 array):
the numerator divided by the (positive) denominator with the quotient
truncated toward zero. -/
def truncQ (q : ℚ) : ℤ := Int.tdiv q.num q.den

/-- A numpy 1-D fitness array: its dtype (integer or float) and its entries.
`fitness = np.array([0 for k in range(num_solutions)])` (source line 175)
has integer dtype; a fitness vector loaded from the workbook is float. -/
structure FitVec where
  isInt : Bool
  data : List ℚ
deriving DecidableEq, Repr

/-- Value actually stored when `q` is assigned into a numpy array of the
given dtype: unchanged for a float array, truncated toward zero for an
integer array. -/
def npCast (isInt : Bool) (q : ℚ) : ℚ := if isInt then (truncQ q : ℚ) else q

/-- `setSlice l i vals` writes `vals` at positions `i, i+1, …` of `l`,
the embedding of the numpy slice assignment `l[i : i + len(vals)] = vals`
(writes beyond the end of `l` are dropped, which never happens at the
call sites under the stated length hypotheses). -/
def setSlice {α : Type} : List α → ℕ → List α → List α
  | l, _, [] => l
  | l, i, v :: vs => setSlice (l.set i v) (i + 1) vs

/-- Source lines 46–60.  `crossover(parents, num_solutions, num_parents,
num_params)`: the crossover point is `np.uint8(num_params/2)`, i.e. the
float `num_params/2` truncated and reduced mod 2^8, embedded as
`num_params / 2 % 256` over `ℕ`.  Offspring `k` takes genes
`[0, crossover_point)` from `parents[k % num_parents]` and the rest from
`parents[(k+1) % num_parents]`. -/
def crossover (parents : List (List ℚ)) (num_solutions num_parents num_params : ℕ) :
    List (List ℚ) :=
  let num_offspring := num_solutions - num_parents
  let crossover_point := num_params / 2 % 256
  (List.range num_offspring).map (fun k =>
    let parent1 := parents.getD (k % num_parents) []
    let parent2 := parents.getD ((k + 1) % num_parents) []
    parent1.take crossover_point ++ parent2.drop crossover_point)

/-- Source lines 63–73, row loop of `mutation`, carrying the current row
index: for each row, `col = np.random.randint(0, num_params)` (oracle
`mutCol row`), and the gene at `col` is overwritten with
`np.random.uniform(low, high)` embedded as `low + (high - low) * u`
with `u = mutU row`. -/
def mutationRows (param_ranges : List (ℚ × ℚ)) (mutCol : ℕ → ℕ) (mutU : ℕ → ℚ) :
    ℕ → List (List ℚ) → List (List ℚ)
  | _, [] => []
  | row, genes :: rest =>
    let col := mutCol row
    let low_bound := (param_ranges.getD col (0, 0)).1
    let high_bound := (param_ranges.getD col (0, 0)).2
    let new_gene := low_bound + (high_bound - low_bound) * mutU row
    genes.set col new_gene :: mutationRows param_ranges mutCol mutU (row + 1) rest

/-- Source lines 63–73.  `mutation(offspring_crossover, num_params,
param_ranges)` with the random calls supplied by the oracles `mutCol`
(values in `[0, num_params)`) and `mutU` (values in `[0, 1)`). -/
def mutation (offspring_crossover : List (List ℚ)) (num_params : ℕ)
    (param_ranges : List (ℚ × ℚ)) (mutCol : ℕ → ℕ) (mutU : ℕ → ℚ) : List (List ℚ) :=
  let _ := num_params
  mutationRows param_ranges mutCol mutU 0 offspring_crossover

/-- Source lines 87–95, the `while comp_solutions < req_solutions` loop of
`solver`.  Each pass evaluates a batch of `min(req - comp, num_cpu)` rows
ending at row `num_solutions - comp` and writes the results into the same
slice of the fitness vector (through the dtype cast `npCast`).  The `fuel`
argument only bounds the recursion; `fuel = req_solutions` suffices since
every pass with `num_cpu ≥ 1` computes at least one row, so the embedding
agrees with the Python loop whenever the latter terminates. -/
def solverLoop (fitnessFun : List ℚ → ℚ) (population : List (List ℚ))
    (num_solutions req_solutions num_cpu : ℕ) :
    ℕ → ℕ → FitVec → FitVec
  | 0, _, fitness => fitness
  | fuel + 1, comp_solutions, fitness =>
    if comp_solutions < req_solutions then
      let num_processes := min (req_solutions - comp_solutions) num_cpu
      let i1 := num_solutions - comp_solutions - num_processes
      let results := ((population.drop i1).take num_processes).map fitnessFun
      let fitness' : FitVec :=
        ⟨fitness.isInt, setSlice fitness.data i1 (results.map (npCast fitness.isInt))⟩
      solverLoop fitnessFun population num_solutions req_solutions num_cpu
        fuel (comp_solutions + num_processes) fitness'
    else fitness

/-- Source lines 77–97.  `solver(fitnessFun, fitness, population, no_data,
num_solutions, num_parents, num_cpu)`: evaluates all `num_solutions` rows
when `no_data`, else the trailing `num_solutions - num_parents` rows. -/
def solver (fitnessFun : List ℚ → ℚ) (fitness : FitVec) (population : List (List ℚ))
    (no_data : Bool) (num_solutions num_parents num_cpu : ℕ) : FitVec :=
  let req_solutions := if no_data then num_solutions else num_solutions - num_parents
  solverLoop fitnessFun population num_solutions req_solutions num_cpu
    req_solutions 0 fitness

/-- Source line 210, `sinds = fitness.argsort()`.  `np.argsort` with its
default `kind` returns some permutation of the indices that sorts the
values ascending; its order on equal keys is not part of numpy's
interface (the default quicksort is documented as not stable).  The
embedding realises one admissible sorting permutation via insertion
sort on the index list; theorems proved from it use only that the
result is a sorting permutation, not its order on ties. -/
def argsort (l : List ℚ) : List ℕ :=
  List.insertionSort (fun i j => l.getD i 0 ≤ l.getD j 0) (List.range l.length)

/-- The configuration surface of `geneticAlgoSolve` that the generation
loop reads, plus the per-generation random oracles of `mutation`
(`mutCol generation row`, `mutU generation row`). -/
structure GAConfig where
  fitnessFun : List ℚ → ℚ
  num_params : ℕ
  num_solutions : ℕ
  num_parents : ℕ
  num_cpu : ℕ
  param_ranges : List (ℚ × ℚ)
  mutCol : ℕ → ℕ → ℕ
  mutU : ℕ → ℕ → ℚ

/-- The mutable run state of `geneticAlgoSolve`: population table, fitness
vector, record table, the `recorded_generations` counter and the
`no_data` flag. -/
structure GAState where
  population : List (List ℚ)
  fitness : FitVec
  record : List (List ℚ)
  recorded_generations : ℕ
  no_data : Bool
deriving DecidableEq

/-- Source lines 194–200: parents are the first `num_parents` population
rows, bred by `crossover` and then `mutation` (random calls supplied by
the generation-indexed oracles). -/
def offspringOf (cfg : GAConfig) (gen : ℕ) (st : GAState) : List (List ℚ) :=
  mutation
    (crossover (st.population.take cfg.num_parents) cfg.num_solutions cfg.num_parents
      cfg.num_params)
    cfg.num_params cfg.param_ranges (cfg.mutCol gen) (cfg.mutU gen)

/-- Source line 203, `population[num_parents:, :] = offspring_mutation`:
the population after the offspring are spliced into the trailing rows. -/
def midPopulation (cfg : GAConfig) (gen : ℕ) (st : GAState) : List (List ℚ) :=
  setSlice st.population cfg.num_parents (offspringOf cfg gen st)

/-- Source line 207: the fitness vector returned by `solver` for the
spliced population, before the sort. -/
def midFitness (cfg : GAConfig) (gen : ℕ) (st : GAState) : FitVec :=
  solver cfg.fitnessFun st.fitness (midPopulation cfg gen st) st.no_data
    cfg.num_solutions cfg.num_parents cfg.num_cpu

/-- Source lines 187–235, one iteration of the `for generation in
range(num_generations)` loop: breed, splice, evaluate, argsort both
arrays by the same index list, then update `recorded_generations` and
the record (lines 218–232; the first generation of a fresh run replaces
the `np.empty` placeholder, later generations `vstack` one new row). -/
def generationStep (cfg : GAConfig) (gen : ℕ) (st : GAState) : GAState :=
  let population := midPopulation cfg gen st
  let fitness := midFitness cfg gen st
  let sinds := argsort fitness.data
  let population2 := sinds.map (fun i => population.getD i [])
  let fitness2 : FitVec := ⟨fitness.isInt, sinds.map (fun i => fitness.data.getD i 0)⟩
  let recorded_generations := if st.no_data then 1 else st.recorded_generations + 1
  let new_record :=
    (recorded_generations : ℚ) :: (population2.getD 0 [] ++ [fitness2.data.getD 0 0])
  let record := if st.no_data then [new_record] else st.record ++ [new_record]
  ⟨population2, fitness2, record, recorded_generations, false⟩

/-- The state after the first `n` generations of the loop. -/
def runGens (cfg : GAConfig) : ℕ → GAState → GAState
  | 0, st => st
  | g + 1, st => generationStep cfg g (runGens cfg g st)

/-- One interaction of `geneticAlgoSolve` with the storage collaborator
(xlwings): workbook creation, sheet creation, a write to a sheet range
at the given row/column, and the two save forms. -/
inductive StorageEvent where
  | newBook : StorageEvent
  | addSheet : String → StorageEvent
  | setCell : String → ℕ → ℕ → StorageEvent
  | saveAs : String → StorageEvent
  | save : StorageEvent
deriving DecidableEq

/-- Why the `try` block of lines 106–131 raised: the workbook was absent,
or it was present but malformed (e.g. `int(record_sheet.range((3,5)).value)`
raising on an empty cell), or any other failure.  The bare `except:` at
line 133 receives no information about which. -/
inductive LoadFailure where
  | notFound : LoadFailure
  | corrupt : LoadFailure
  | other : LoadFailure
deriving DecidableEq

/-- Outcome of the load attempt of lines 106–131: success carries the
population table, the fitness row, the `recorded_generations` cell and
the record table read from the workbook. -/
inductive LoadResult where
  | ok : List (List ℚ) → List ℚ → ℕ → List (List ℚ) → LoadResult
  | err : LoadFailure → LoadResult

/-- The storage events of the workbook-creation branch, lines 140–156:
`xl.Book()`, three `sheets.add`, the five header-format writes and the
zero written to the recorded-generations cell (3,5) — all of which
happen before the `param_ranges` length check at line 158. -/
def bootstrapTrace (num_params : ℕ) : List StorageEvent :=
  [.newBook, .addSheet "Population", .addSheet "Record", .addSheet "Fitness",
   .setCell "Record" 1 2, .setCell "Record" 3 2, .setCell "Record" 5 2,
   .setCell "Record" 5 3, .setCell "Record" 5 (3 + num_params), .setCell "Record" 3 5]

/-- Source lines 106–182, the load-or-create phase of `geneticAlgoSolve`.
A successful load yields the stored state with a float fitness vector
and `no_data = False`.  ANY load failure falls into the `except:`
branch, which creates and formats the workbook, then either returns
early (`param_ranges` length mismatch, line 158–161) or builds a random
population (uniform sampling embedded as `low + (high-low) * initU row
col`), the integer zero fitness vector of line 175 and the
`np.empty((1, num_params+2))` record placeholder (uninitialised memory,
modelled as zeros; its contents are discarded by the first generation).
The Python variable `recorded_generations` is not yet assigned on this
path; the state stores 0, the value written to cell (3,5). -/
def gaInit (load : LoadResult) (num_params num_solutions : ℕ)
    (param_ranges : List (ℚ × ℚ)) (initU : ℕ → ℕ → ℚ) :
    Option GAState × List StorageEvent :=
  match load with
  | .ok population fitness recorded_generations record =>
      (some ⟨population, ⟨false, fitness⟩, record, recorded_generations, false⟩, [])
  | .err _ =>
      if param_ranges.length ≠ num_params then
        (none, bootstrapTrace num_params)
      else
        let population := (List.range num_solutions).map (fun row =>
          (List.range num_params).map (fun col =>
            let low_bound := (param_ranges.getD col (0, 0)).1
            let high_bound := (param_ranges.getD col (0, 0)).2
            low_bound + (high_bound - low_bound) * initU row col))
        let fitness : FitVec := ⟨true, List.replicate num_solutions 0⟩
        let record := [List.replicate (num_params + 2) 0]
        (some ⟨population, fitness, record, 0, true⟩, bootstrapTrace num_params)

/-- The storage events of one generation, lines 216–235: population and
fitness writes, `wb.save(output_file)` on the first generation of a
fresh run, then the record-count cell, the record table and `wb.save()`. -/
def generationTrace (st : GAState) (output_file : String) : List StorageEvent :=
  [.setCell "Population" 1 1, .setCell "Fitness" 1 1]
    ++ (if st.no_data then [.saveAs output_file] else [])
    ++ [.setCell "Record" 3 5, .setCell "Record" 6 2, .save]

/-- `runGens` paired with the storage-event log of the generations run. -/
def runGensTr (cfg : GAConfig) (output_file : String) :
    ℕ → GAState → GAState × List StorageEvent
  | 0, st => (st, [])
  | g + 1, st =>
      let prev := runGensTr cfg output_file g st
      (generationStep cfg g prev.1, prev.2 ++ generationTrace prev.1 output_file)

/-- Source lines 101–235, `geneticAlgoSolve`: the load-or-create phase
followed by the generation loop.  The first component is `none` exactly
on the early `return` of line 161; the second is the full log of
storage interactions. -/
def geneticAlgoSolve (fitnessFun : List ℚ → ℚ) (output_file : String)
    (num_generations num_params num_solutions num_parents : ℕ)
    (param_ranges : List (ℚ × ℚ)) (load : LoadResult)
    (initU : ℕ → ℕ → ℚ) (mutCol : ℕ → ℕ → ℕ) (mutU : ℕ → ℕ → ℚ) (num_cpu : ℕ) :
    Option GAState × List StorageEvent :=
  match gaInit load num_params num_solutions param_ranges initU with
  | (none, trace) => (none, trace)
  | (some st, trace) =>
      let cfg : GAConfig :=
        ⟨fitnessFun, num_params, num_solutions, num_parents, num_cpu, param_ranges,
          mutCol, mutU⟩
      let run := runGensTr cfg output_file num_generations st
      (some run.1, trace ++ run.2)

/-! ## Helper lemmas -/

theorem length_setSlice {α : Type} (vals : List α) :
    ∀ (l : List α) (i : ℕ), (setSlice l i vals).length = l.length := by
  induction vals with
  | nil => intro l i; rfl
  | cons v vs ih =>
    intro l i
    rw [show setSlice l i (v :: vs) = setSlice (l.set i v) (i + 1) vs from rfl,
      ih, List.length_set]

theorem setSlice_getElem? {α : Type} (vals : List α) :
    ∀ (l : List α) (i j : ℕ),
      (setSlice l i vals)[j]? =
        if i ≤ j ∧ j < i + vals.length ∧ j < l.length then vals[j - i]? else l[j]? := by
  induction vals with
  | nil =>
    intro l i j
    simp only [List.length_nil, Nat.add_zero]
    rw [if_neg (by omega)]
    rfl
  | cons v vs ih =>
    intro l i j
    rw [show setSlice l i (v :: vs) = setSlice (l.set i v) (i + 1) vs from rfl, ih,
      List.length_set]
    by_cases h1 : i + 1 ≤ j ∧ j < i + 1 + vs.length ∧ j < l.length
    · rw [if_pos h1, if_pos (by simp only [List.length_cons]; omega)]
      have hj : j - i = (j - (i + 1)) + 1 := by omega
      rw [hj, List.getElem?_cons_succ]
    · rw [if_neg h1, List.getElem?_set]
      by_cases hij : i = j
      · subst hij
        by_cases hlen : i < l.length
        · rw [if_pos rfl, if_pos hlen,
            if_pos (by simp only [List.length_cons]; omega)]
          simp
        · rw [if_pos rfl, if_neg hlen, if_neg (by simp only [List.length_cons]; omega)]
          exact (List.getElem?_eq_none (by omega)).symm
      · rw [if_neg hij, if_neg (by simp only [List.length_cons]; omega)]

theorem setSlice_getD {α : Type} (vals l : List α) (i j : ℕ) (d : α) :
    (setSlice l i vals).getD j d =
      if i ≤ j ∧ j < i + vals.length ∧ j < l.length then vals.getD (j - i) d
      else l.getD j d := by
  rw [List.getD_eq_getElem?_getD, setSlice_getElem?]
  split
  · rw [List.getD_eq_getElem?_getD]
  · rw [List.getD_eq_getElem?_getD]

theorem solverLoop_isInt (f : List ℚ → ℚ) (pop : List (List ℚ)) (ns req ncpu : ℕ) :
    ∀ (fuel comp : ℕ) (fitness : FitVec),
      (solverLoop f pop ns req ncpu fuel comp fitness).isInt = fitness.isInt := by
  intro fuel
  induction fuel with
  | zero => intro comp fitness; rfl
  | succ fuel ih =>
    intro comp fitness
    simp only [solverLoop]
    split
    · exact ih _ _
    · rfl

theorem solverLoop_data_length (f : List ℚ → ℚ) (pop : List (List ℚ)) (ns req ncpu : ℕ) :
    ∀ (fuel comp : ℕ) (fitness : FitVec),
      (solverLoop f pop ns req ncpu fuel comp fitness).data.length = fitness.data.length := by
  intro fuel
  induction fuel with
  | zero => intro comp fitness; rfl
  | succ fuel ih =>
    intro comp fitness
    simp only [solverLoop]
    split
    · rw [ih]
      exact length_setSlice _ _ _
    · rfl

theorem solverLoop_spec (f : List ℚ → ℚ) (pop : List (List ℚ)) (ns req ncpu : ℕ)
    (hcpu : 0 < ncpu) (hreq : req ≤ ns) (hpop : pop.length = ns) :
    ∀ (fuel comp : ℕ) (fitness : FitVec), comp ≤ req → req ≤ comp + fuel →
      fitness.data.length = ns →
      ∀ j, (solverLoop f pop ns req ncpu fuel comp fitness).data[j]? =
        if ns - req ≤ j ∧ j < ns - comp then
          some (npCast fitness.isInt (f (pop.getD j [])))
        else fitness.data[j]? := by
  intro fuel
  induction fuel with
  | zero =>
    intro comp fitness h1 h2 _ j
    have hcr : comp = req := by omega
    subst hcr
    rw [if_neg (by omega)]
    rfl
  | succ fuel ih =>
    intro comp fitness h1 h2 hflen j
    by_cases hlt : comp < req
    · have hproc1 : 1 ≤ min (req - comp) ncpu := le_min (by omega) hcpu
      have hproc2 : comp + min (req - comp) ncpu ≤ req := by
        have := Nat.min_le_left (req - comp) ncpu
        omega
      have hstep : solverLoop f pop ns req ncpu (fuel + 1) comp fitness
          = solverLoop f pop ns req ncpu fuel (comp + min (req - comp) ncpu)
              ⟨fitness.isInt,
                setSlice fitness.data (ns - comp - min (req - comp) ncpu)
                  ((((pop.drop (ns - comp - min (req - comp) ncpu)).take
                      (min (req - comp) ncpu)).map f).map (npCast fitness.isInt))⟩ := by
        simp only [solverLoop]
        rw [if_pos hlt]
      rw [hstep]
      set proc := min (req - comp) ncpu with hproc
      set i1 := ns - comp - proc with hi1
      set vals := (((pop.drop i1).take proc).map f).map (npCast fitness.isInt) with hvals
      have hvlen : vals.length = proc := by
        rw [hvals, List.length_map, List.length_map, List.length_take, List.length_drop,
          hpop]
        have : proc ≤ ns - i1 := by omega
        omega
      have hflen' : (setSlice fitness.data i1 vals).length = ns := by
        rw [length_setSlice, hflen]
      rw [ih (comp + proc) ⟨fitness.isInt, setSlice fitness.data i1 vals⟩ hproc2
        (by omega) hflen' j]
      rw [setSlice_getElem?]
      by_cases hA : ns - req ≤ j ∧ j < ns - (comp + proc)
      · rw [if_pos hA, if_pos (show ns - req ≤ j ∧ j < ns - comp by omega)]
      · rw [if_neg hA]
        by_cases hB : ns - req ≤ j ∧ j < ns - comp
        · rw [if_pos hB, if_pos (show i1 ≤ j ∧ j < i1 + vals.length ∧
            j < fitness.data.length by omega)]
          have hk : j - i1 < proc := by omega
          have hjpop : j < pop.length := by omega
          rw [hvals, List.getElem?_map, List.getElem?_map, List.getElem?_take,
            if_pos hk, List.getElem?_drop, (show i1 + (j - i1) = j by omega),
            List.getElem?_eq_getElem hjpop]
          rw [List.getD_eq_getElem _ _ hjpop]
          rfl
        · rw [if_neg hB, if_neg (show ¬(i1 ≤ j ∧ j < i1 + vals.length ∧
            j < fitness.data.length) by omega)]
    · have hstep : solverLoop f pop ns req ncpu (fuel + 1) comp fitness = fitness := by
        simp only [solverLoop]
        rw [if_neg hlt]
      rw [hstep, if_neg (by omega)]

theorem solver_data_getD (f : List ℚ → ℚ) (fitness : FitVec) (pop : List (List ℚ))
    (no_data : Bool) (ns np nc : ℕ)
    (hcpu : 0 < nc) (hnp : np ≤ ns) (hpop : pop.length = ns)
    (hflen : fitness.data.length = ns) :
    ∀ j, j < ns → ∀ d : ℚ,
      (solver f fitness pop no_data ns np nc).data.getD j d =
        if no_data = true ∨ np ≤ j then npCast fitness.isInt (f (pop.getD j []))
        else fitness.data.getD j d := by
  intro j hj d
  cases no_data with
  | true =>
    rw [List.getD_eq_getElem?_getD,
      show solver f fitness pop true ns np nc
        = solverLoop f pop ns ns nc ns 0 fitness from rfl,
      solverLoop_spec f pop ns ns nc hcpu (le_refl ns) hpop ns 0 fitness
        (Nat.zero_le _) (by omega) hflen j]
    rw [if_pos (by omega), if_pos (Or.inl rfl)]
    rfl
  | false =>
    rw [List.getD_eq_getElem?_getD,
      show solver f fitness pop false ns np nc
        = solverLoop f pop ns (ns - np) nc (ns - np) 0 fitness from rfl,
      solverLoop_spec f pop ns (ns - np) nc hcpu (by omega) hpop _ 0 fitness
        (Nat.zero_le _) (by omega) hflen j]
    simp only [Bool.false_eq_true, false_or]
    by_cases hnpj : np ≤ j
    · rw [if_pos (by omega), if_pos hnpj]
      rfl
    · rw [if_neg (by omega), if_neg hnpj, List.getD_eq_getElem?_getD]

theorem solver_isInt (f : List ℚ → ℚ) (fitness : FitVec) (pop : List (List ℚ))
    (no_data : Bool) (ns np nc : ℕ) :
    (solver f fitness pop no_data ns np nc).isInt = fitness.isInt :=
  solverLoop_isInt f pop ns _ nc _ 0 fitness

theorem solver_data_length (f : List ℚ → ℚ) (fitness : FitVec) (pop : List (List ℚ))
    (no_data : Bool) (ns np nc : ℕ) :
    (solver f fitness pop no_data ns np nc).data.length = fitness.data.length :=
  solverLoop_data_length f pop ns _ nc _ 0 fitness

theorem argsort_perm (l : List ℚ) : (argsort l).Perm (List.range l.length) :=
  List.perm_insertionSort _ _

theorem argsort_length (l : List ℚ) : (argsort l).length = l.length := by
  rw [(argsort_perm l).length_eq, List.length_range]

theorem argsort_sorted (l : List ℚ) :
    ((argsort l).map (fun i => l.getD i 0)).Sorted (· ≤ ·) := by
  have hs : (argsort l).Sorted (fun i j => l.getD i 0 ≤ l.getD j 0) := by
    haveI : IsTotal ℕ (fun i j => l.getD i 0 ≤ l.getD j 0) := ⟨fun a b => le_total _ _⟩
    haveI : IsTrans ℕ (fun i j => l.getD i 0 ≤ l.getD j 0) :=
      ⟨fun a b c hab hbc => le_trans hab hbc⟩
    exact List.sorted_insertionSort _ _
  exact List.Pairwise.map _ (fun a b h => h) hs

theorem map_getD_range (l : List ℚ) :
    (List.range l.length).map (fun i => l.getD i 0) = l := by
  apply List.ext_getElem
  · rw [List.length_map, List.length_range]
  · intro n h1 h2
    rw [List.getElem_map, List.getElem_range, List.getD_eq_getElem _ _ h2]

theorem argsort_map_perm (l : List ℚ) :
    ((argsort l).map (fun i => l.getD i 0)).Perm l := by
  have h := (argsort_perm l).map (fun i => l.getD i 0)
  rwa [map_getD_range] at h

theorem sorted_head_le {L : List ℚ} (hs : L.Sorted (· ≤ ·)) :
    ∀ x ∈ L, L.getD 0 0 ≤ x := by
  intro x hx
  cases L with
  | nil => cases hx
  | cons a t =>
    rcases List.mem_cons.mp hx with h | h
    · rw [h]
      exact le_refl a
    · exact (List.sorted_cons.mp hs).1 x h

theorem crossover_length (parents : List (List ℚ)) (ns np npr : ℕ) :
    (crossover parents ns np npr).length = ns - np := by
  rw [show crossover parents ns np npr = (List.range (ns - np)).map (fun k =>
      (parents.getD (k % np) []).take (npr / 2 % 256)
      ++ (parents.getD ((k + 1) % np) []).drop (npr / 2 % 256)) from rfl,
    List.length_map, List.length_range]

theorem crossover_row (parents : List (List ℚ)) (ns np npr : ℕ)
    (k : ℕ) (hk : k < ns - np) :
    (crossover parents ns np npr).getD k []
      = (parents.getD (k % np) []).take (npr / 2 % 256)
        ++ (parents.getD ((k + 1) % np) []).drop (npr / 2 % 256) := by
  rw [show crossover parents ns np npr = (List.range (ns - np)).map (fun k =>
      (parents.getD (k % np) []).take (npr / 2 % 256)
      ++ (parents.getD ((k + 1) % np) []).drop (npr / 2 % 256)) from rfl]
  rw [List.getD_eq_getElem _ _ (by rw [List.length_map, List.length_range]; exact hk),
    List.getElem_map, List.getElem_range]

theorem mutationRows_length (pr : List (ℚ × ℚ)) (mc : ℕ → ℕ) (mu : ℕ → ℚ) :
    ∀ (row : ℕ) (l : List (List ℚ)), (mutationRows pr mc mu row l).length = l.length := by
  intro row l
  induction l generalizing row with
  | nil => rfl
  | cons g t ih => simp only [mutationRows, List.length_cons, ih]

theorem mutationRows_getD (pr : List (ℚ × ℚ)) (mc : ℕ → ℕ) (mu : ℕ → ℚ) :
    ∀ (l : List (List ℚ)) (row k : ℕ), k < l.length →
      (mutationRows pr mc mu row l).getD k []
        = (l.getD k []).set (mc (row + k))
            ((pr.getD (mc (row + k)) (0, 0)).1
              + ((pr.getD (mc (row + k)) (0, 0)).2 - (pr.getD (mc (row + k)) (0, 0)).1)
                * mu (row + k)) := by
  intro l
  induction l with
  | nil => intro row k h; simp at h
  | cons g t ih =>
    intro row k hk
    cases k with
    | zero => simp [mutationRows]
    | succ k =>
      have hk' : k < t.length := by simpa using hk
      have h1 : (mutationRows pr mc mu row (g :: t)).getD (k + 1) []
          = (mutationRows pr mc mu (row + 1) t).getD k [] := rfl
      rw [h1, ih (row + 1) k hk', show row + 1 + k = row + (k + 1) by omega]
      rfl

theorem runGens_succ_no_data (cfg : GAConfig) (st0 : GAState) (k : ℕ) :
    (runGens cfg (k + 1) st0).no_data = false := rfl

theorem runGens_lengths (cfg : GAConfig) (st0 : GAState)
    (hpop : st0.population.length = cfg.num_solutions)
    (hfit : st0.fitness.data.length = cfg.num_solutions) :
    ∀ k, (runGens cfg k st0).population.length = cfg.num_solutions
      ∧ (runGens cfg k st0).fitness.data.length = cfg.num_solutions := by
  intro k
  induction k with
  | zero => exact ⟨hpop, hfit⟩
  | succ k ih =>
    have hmid : (midFitness cfg k (runGens cfg k st0)).data.length
        = cfg.num_solutions := by
      rw [midFitness, solver_data_length]
      exact ih.2
    constructor
    · show ((argsort (midFitness cfg k (runGens cfg k st0)).data).map _).length = _
      rw [List.length_map, argsort_length, hmid]
    · show ((argsort (midFitness cfg k (runGens cfg k st0)).data).map _).length = _
      rw [List.length_map, argsort_length, hmid]

theorem generationStep_rg (cfg : GAConfig) (gen : ℕ) (st : GAState) :
    (generationStep cfg gen st).recorded_generations
      = if st.no_data = true then 1 else st.recorded_generations + 1 := rfl

theorem generationStep_record_eq (cfg : GAConfig) (gen : ℕ) (st : GAState) :
    (generationStep cfg gen st).record
      = (if st.no_data = true then [] else st.record)
        ++ [((generationStep cfg gen st).recorded_generations : ℚ)
            :: ((generationStep cfg gen st).population.getD 0 []
                ++ [(generationStep cfg gen st).fitness.data.getD 0 0])] := by
  rw [show (generationStep cfg gen st).record
      = (if st.no_data = true
          then [((generationStep cfg gen st).recorded_generations : ℚ)
            :: ((generationStep cfg gen st).population.getD 0 []
                ++ [(generationStep cfg gen st).fitness.data.getD 0 0])]
          else st.record
            ++ [((generationStep cfg gen st).recorded_generations : ℚ)
              :: ((generationStep cfg gen st).population.getD 0 []
                  ++ [(generationStep cfg gen st).fitness.data.getD 0 0])]) from rfl]
  cases hnd : st.no_data with
  | true => simp
  | false => simp

theorem runGens_record_inv (cfg : GAConfig) (st0 : GAState)
    (hres : st0.no_data = false → st0.record.length = st0.recorded_generations)
    (hfr : st0.no_data = true → st0.recorded_generations = 0) :
    ∀ k, (runGens cfg (k + 1) st0).recorded_generations
        = st0.recorded_generations + (k + 1)
      ∧ (runGens cfg (k + 1) st0).record.length
        = st0.recorded_generations + (k + 1) := by
  intro k
  induction k with
  | zero =>
    have h1 := generationStep_rg cfg 0 st0
    have h2 := generationStep_record_eq cfg 0 st0
    cases hnd : st0.no_data with
    | true =>
      have h0 : st0.recorded_generations = 0 := hfr hnd
      constructor
      · show (generationStep cfg 0 st0).recorded_generations = _
        rw [h1, hnd, if_pos rfl, h0]
      · show (generationStep cfg 0 st0).record.length = _
        rw [h2, hnd, if_pos rfl, h0]
        rfl
    | false =>
      constructor
      · show (generationStep cfg 0 st0).recorded_generations = _
        rw [h1, hnd, if_neg Bool.false_ne_true]
      · show (generationStep cfg 0 st0).record.length = _
        rw [h2, hnd, if_neg Bool.false_ne_true, List.length_append,
          List.length_singleton, hres hnd]
  | succ k ih =>
    have hnd : (runGens cfg (k + 1) st0).no_data = false := runGens_succ_no_data cfg st0 k
    have h1 := generationStep_rg cfg (k + 1) (runGens cfg (k + 1) st0)
    have h2 := generationStep_record_eq cfg (k + 1) (runGens cfg (k + 1) st0)
    constructor
    · show (generationStep cfg (k + 1) (runGens cfg (k + 1) st0)).recorded_generations = _
      rw [h1, hnd, if_neg Bool.false_ne_true, ih.1]
      omega
    · show (generationStep cfg (k + 1) (runGens cfg (k + 1) st0)).record.length = _
      rw [h2, hnd, if_neg Bool.false_ne_true, List.length_append,
        List.length_singleton, ih.2]
      omega

/-! ## Claim theorems -/

/-- C1, counterexample: the claim predicts that offspring gene positions
below `floor(num_params/2)` come from `parents[k mod num_parents]`, but
for `num_params = 512` the source computes the crossover point as
`np.uint8(512/2) = np.uint8(256.0) = 0` (the cast reduces mod 2^8), so
gene 0 of offspring 0 is taken from parent `(k+1) mod num_parents`
instead: here it is 2 (from parent 1) and not 1 (from parent 0). -/
theorem crossover_uint8_wrap_cex :
    ((crossover [List.replicate 512 (1 : ℚ), List.replicate 512 2] 3 2 512).getD 0
        []).getD 0 0
      ≠ (([List.replicate 512 (1 : ℚ), List.replicate 512 2].getD (0 % 2) []).getD 0 0) := by
  decide

/-- C1 (amended): for `num_params < 512` — so that the `np.uint8` cast of
the crossover point does not wrap — `crossover` returns exactly
`num_solutions - num_parents` offspring, and offspring `k` has genes
`[0, floor(num_params/2))` copied from `parents[k mod num_parents]` and
genes `[floor(num_params/2), num_params)` copied from
`parents[(k+1) mod num_parents]`.  Determinism holds by construction:
the embedding of `crossover` takes no randomness oracle because its
source makes no random calls. -/
theorem crossover_spec (parents : List (List ℚ)) (num_solutions num_parents num_params : ℕ)
    (hwrap : num_params < 512) (hp : 0 < num_parents)
    (hplen : parents.length = num_parents)
    (hrows : ∀ g ∈ parents, g.length = num_params) :
    (crossover parents num_solutions num_parents num_params).length
        = num_solutions - num_parents
    ∧ ∀ k, k < num_solutions - num_parents → ∀ c, c < num_params →
        ((crossover parents num_solutions num_parents num_params).getD k []).getD c 0
          = if c < num_params / 2
            then (parents.getD (k % num_parents) []).getD c 0
            else (parents.getD ((k + 1) % num_parents) []).getD c 0 := by
  have hcp : num_params / 2 % 256 = num_params / 2 := Nat.mod_eq_of_lt (by omega)
  refine ⟨crossover_length _ _ _ _, ?_⟩
  intro k hk c hc
  rw [crossover_row parents _ _ _ k hk, hcp]
  have h1lt : k % num_parents < parents.length := by
    rw [hplen]
    exact Nat.mod_lt _ hp
  have h1len : (parents.getD (k % num_parents) []).length = num_params := by
    rw [List.getD_eq_getElem _ _ h1lt]
    exact hrows _ (List.getElem_mem h1lt)
  have htlen : ((parents.getD (k % num_parents) []).take (num_params / 2)).length
      = num_params / 2 := by
    rw [List.length_take, h1len]
    have := Nat.div_le_self num_params 2
    omega
  by_cases hcase : c < num_params / 2
  · rw [if_pos hcase, List.getD_eq_getElem?_getD, List.getElem?_append, htlen,
      if_pos hcase, List.getElem?_take, if_pos hcase, ← List.getD_eq_getElem?_getD]
  · rw [if_neg hcase, List.getD_eq_getElem?_getD, List.getElem?_append, htlen,
      if_neg hcase, List.getElem?_drop,
      show num_params / 2 + (c - num_params / 2) = c by omega,
      ← List.getD_eq_getElem?_getD]

/-- Witness for `crossover_spec` at `parents = [[1,2,3,4],[5,6,7,8]]`,
`num_solutions = 3`, `num_parents = 2`, `num_params = 4`. -/
theorem crossover_spec_witness :
    ((crossover [[(1 : ℚ), 2, 3, 4], [5, 6, 7, 8]] 3 2 4).getD 0 []).getD 2 0
      = if 2 < 4 / 2
        then (([[(1 : ℚ), 2, 3, 4], [5, 6, 7, 8]].getD (0 % 2) []).getD 2 0)
        else (([[(1 : ℚ), 2, 3, 4], [5, 6, 7, 8]].getD ((0 + 1) % 2) []).getD 2 0) :=
  (crossover_spec [[(1 : ℚ), 2, 3, 4], [5, 6, 7, 8]] 3 2 4 (by decide) (by decide)
    (by decide) (by decide)).2 0 (by decide) 2 (by decide)

/-- C2: with at least one worker, `solver` evaluates all `num_solutions`
rows when `no_data` is true (fresh run), and otherwise evaluates exactly
the trailing `num_solutions - num_parents` rows while returning the
leading `num_parents` fitness entries unchanged.  ("Evaluates row `j`"
means the returned entry `j` is the fitness function's value on
population row `j`, stored through the vector's dtype cast.) -/
theorem solver_schedule (fitnessFun : List ℚ → ℚ) (fitness : FitVec)
    (population : List (List ℚ)) (no_data : Bool)
    (num_solutions num_parents num_cpu : ℕ)
    (hcpu : 0 < num_cpu) (hnp : num_parents ≤ num_solutions)
    (hpop : population.length = num_solutions)
    (hflen : fitness.data.length = num_solutions) :
    (no_data = true → ∀ j, j < num_solutions →
      (solver fitnessFun fitness population no_data num_solutions num_parents
          num_cpu).data.getD j 0
        = npCast fitness.isInt (fitnessFun (population.getD j [])))
    ∧ (no_data = false →
        (∀ j, j < num_parents →
          (solver fitnessFun fitness population no_data num_solutions num_parents
              num_cpu).data.getD j 0
            = fitness.data.getD j 0)
        ∧ (∀ j, num_parents ≤ j → j < num_solutions →
          (solver fitnessFun fitness population no_data num_solutions num_parents
              num_cpu).data.getD j 0
            = npCast fitness.isInt (fitnessFun (population.getD j [])))) := by
  constructor
  · intro hnd j hj
    subst hnd
    rw [solver_data_getD fitnessFun fitness population true num_solutions num_parents
      num_cpu hcpu hnp hpop hflen j hj 0, if_pos (Or.inl rfl)]
  · intro hnd
    subst hnd
    constructor
    · intro j hj
      rw [solver_data_getD fitnessFun fitness population false num_solutions num_parents
        num_cpu hcpu hnp hpop hflen j (by omega) 0,
        if_neg (by simp only [Bool.false_eq_true, false_or]; omega)]
    · intro j hj1 hj2
      rw [solver_data_getD fitnessFun fitness population false num_solutions num_parents
        num_cpu hcpu hnp hpop hflen j hj2 0, if_pos (Or.inr hj1)]

/-- Witness for `solver_schedule`: a resumed call (`no_data = false`) with
`num_solutions = 3`, `num_parents = 1`, `num_cpu = 2` leaves fitness
entry 0 unchanged. -/
theorem solver_schedule_witness :
    (solver (fun g => g.getD 0 0) ⟨false, [(5 : ℚ), 6, 7]⟩ [[1], [2], [3]] false 3 1
        2).data.getD 0 0
      = [(5 : ℚ), 6, 7].getD 0 0 :=
  ((solver_schedule (fun g => g.getD 0 0) ⟨false, [(5 : ℚ), 6, 7]⟩ [[1], [2], [3]]
    false 3 1 2 (by decide) (by decide) (by decide) (by decide)).2 rfl).1 0 (by decide)

/-- C3: on a fresh run the fitness vector created at source line 175,
`np.array([0 for k in range(num_solutions)])`, has integer dtype, so the
slice assignment in `solver` truncates each float result toward zero:
with `fitnessFun` constantly `9/2`, every evaluated entry is stored as
`4`, not `9/2`.  The claim `fitness[i] = fitnessFn(population[i])` fails
on this input (the index alignment itself is not violated — each row's
truncated value lands at its own index, per `solver_schedule`). -/
theorem solver_fresh_run_truncates :
    (solver (fun _ => mkRat 9 2) ⟨true, List.replicate 2 0⟩ [[0], [0]] true 2 1 1).data
        = [4, 4]
    ∧ mkRat 9 2 ≠ (4 : ℚ) := by
  decide

/-- C9: for every offspring row, `mutation` replaces exactly the one gene
at the oracle-chosen column `mutCol r < num_params` with
`low + (high - low) * u` for the oracle sample `u ∈ [0, 1)` — a value
inside that gene's configured inclusive `[low, high]` range — and leaves
every other gene of that row exactly as produced by crossover. -/
theorem mutation_single_gene (offspring_crossover : List (List ℚ)) (num_params : ℕ)
    (param_ranges : List (ℚ × ℚ)) (mutCol : ℕ → ℕ) (mutU : ℕ → ℚ)
    (hcol : ∀ r, mutCol r < num_params)
    (hu : ∀ r, 0 ≤ mutU r ∧ mutU r < 1)
    (hpr : param_ranges.length = num_params)
    (hranges : ∀ p ∈ param_ranges, p.1 ≤ p.2)
    (hrows : ∀ g ∈ offspring_crossover, g.length = num_params) :
    (mutation offspring_crossover num_params param_ranges mutCol mutU).length
        = offspring_crossover.length
    ∧ ∀ r, r < offspring_crossover.length →
        ((param_ranges.getD (mutCol r) (0, 0)).1
            ≤ ((mutation offspring_crossover num_params param_ranges mutCol
                mutU).getD r []).getD (mutCol r) 0
          ∧ ((mutation offspring_crossover num_params param_ranges mutCol
                mutU).getD r []).getD (mutCol r) 0
            ≤ (param_ranges.getD (mutCol r) (0, 0)).2)
        ∧ ∀ c, c < num_params → c ≠ mutCol r →
            ((mutation offspring_crossover num_params param_ranges mutCol
                mutU).getD r []).getD c 0
              = (offspring_crossover.getD r []).getD c 0 := by
  have hm : mutation offspring_crossover num_params param_ranges mutCol mutU
      = mutationRows param_ranges mutCol mutU 0 offspring_crossover := rfl
  refine ⟨by rw [hm, mutationRows_length], ?_⟩
  intro r hr
  have hrow := mutationRows_getD param_ranges mutCol mutU offspring_crossover 0 r hr
  simp only [Nat.zero_add] at hrow
  have hglen : (offspring_crossover.getD r []).length = num_params := by
    rw [List.getD_eq_getElem _ _ hr]
    exact hrows _ (List.getElem_mem hr)
  have hcol' : mutCol r < (offspring_crossover.getD r []).length := by
    rw [hglen]
    exact hcol r
  have hclt : mutCol r < param_ranges.length := by
    rw [hpr]
    exact hcol r
  have hlh : (param_ranges.getD (mutCol r) (0, 0)).1
      ≤ (param_ranges.getD (mutCol r) (0, 0)).2 := by
    rw [List.getD_eq_getElem _ _ hclt]
    exact hranges _ (List.getElem_mem hclt)
  have hset : ((offspring_crossover.getD r []).set (mutCol r)
        ((param_ranges.getD (mutCol r) (0, 0)).1
          + ((param_ranges.getD (mutCol r) (0, 0)).2
            - (param_ranges.getD (mutCol r) (0, 0)).1) * mutU r)).getD (mutCol r) 0
      = (param_ranges.getD (mutCol r) (0, 0)).1
        + ((param_ranges.getD (mutCol r) (0, 0)).2
          - (param_ranges.getD (mutCol r) (0, 0)).1) * mutU r := by
    rw [List.getD_eq_getElem?_getD, List.getElem?_set, if_pos rfl, if_pos hcol',
      Option.getD_some]
  refine ⟨⟨?_, ?_⟩, ?_⟩
  · rw [hm, hrow, hset]
    have h1 : (0 : ℚ) ≤ ((param_ranges.getD (mutCol r) (0, 0)).2
        - (param_ranges.getD (mutCol r) (0, 0)).1) * mutU r :=
      mul_nonneg (by linarith) (hu r).1
    linarith
  · rw [hm, hrow, hset]
    have h2 : ((param_ranges.getD (mutCol r) (0, 0)).2
          - (param_ranges.getD (mutCol r) (0, 0)).1) * mutU r
        ≤ ((param_ranges.getD (mutCol r) (0, 0)).2
          - (param_ranges.getD (mutCol r) (0, 0)).1) * 1 :=
      mul_le_mul_of_nonneg_left (le_of_lt (hu r).2) (by linarith)
    rw [mul_one] at h2
    linarith
  · intro c hc hne
    have hset2 : ((offspring_crossover.getD r []).set (mutCol r)
          ((param_ranges.getD (mutCol r) (0, 0)).1
            + ((param_ranges.getD (mutCol r) (0, 0)).2
              - (param_ranges.getD (mutCol r) (0, 0)).1) * mutU r)).getD c 0
        = (offspring_crossover.getD r []).getD c 0 := by
      rw [List.getD_eq_getElem?_getD, List.getElem?_set,
        if_neg (fun h => hne h.symm), ← List.getD_eq_getElem?_getD]
    rw [hm, hrow, hset2]

/-- Witness for `mutation_single_gene`: one row `[10, 20]`, two genes,
ranges `[(0,1), (5,7)]`, mutated column 1, sample `u = 0`; gene 0 is
untouched. -/
theorem mutation_single_gene_witness :
    ((mutation [[(10 : ℚ), 20]] 2 [((0 : ℚ), 1), (5, 7)] (fun _ => 1)
        (fun _ => 0)).getD 0 []).getD 0 0
      = ([[(10 : ℚ), 20]].getD 0 []).getD 0 0 :=
  ((mutation_single_gene [[(10 : ℚ), 20]] 2 [((0 : ℚ), 1), (5, 7)] (fun _ => 1)
    (fun _ => 0) (fun _ => Nat.one_lt_two) (fun _ => ⟨le_refl 0, by norm_num⟩) (by decide)
    (by decide) (by decide)).2 0 (by decide)).2 0 (by decide) (by decide)

/-- C4: after every completed generation (for any valid configuration and
any starting state of consistent shape), the fitness vector is sorted
ascending, entry 0 is a minimum of the vector, and population rows and
fitness entries were permuted by one and the same sorting index list
applied to the spliced-and-evaluated mid-generation arrays. -/
theorem generation_sorted_invariant (cfg : GAConfig) (st0 : GAState)
    (hcpu : 0 < cfg.num_cpu) (hnp : cfg.num_parents ≤ cfg.num_solutions)
    (hpop : st0.population.length = cfg.num_solutions)
    (hfit : st0.fitness.data.length = cfg.num_solutions) :
    ∀ k, ((runGens cfg (k + 1) st0).fitness.data.Sorted (· ≤ ·))
      ∧ (∀ x ∈ (runGens cfg (k + 1) st0).fitness.data,
          (runGens cfg (k + 1) st0).fitness.data.getD 0 0 ≤ x)
      ∧ ∃ sinds : List ℕ, sinds.Perm (List.range cfg.num_solutions)
          ∧ (runGens cfg (k + 1) st0).population
              = sinds.map (fun i => (midPopulation cfg k (runGens cfg k st0)).getD i [])
          ∧ (runGens cfg (k + 1) st0).fitness.data
              = sinds.map (fun i => (midFitness cfg k (runGens cfg k st0)).data.getD i 0) := by
  intro k
  have hlen := runGens_lengths cfg st0 hpop hfit k
  have hmid : (midFitness cfg k (runGens cfg k st0)).data.length = cfg.num_solutions := by
    rw [midFitness, solver_data_length]
    exact hlen.2
  have hfd : (runGens cfg (k + 1) st0).fitness.data
      = (argsort (midFitness cfg k (runGens cfg k st0)).data).map
          (fun i => (midFitness cfg k (runGens cfg k st0)).data.getD i 0) := rfl
  have hpd : (runGens cfg (k + 1) st0).population
      = (argsort (midFitness cfg k (runGens cfg k st0)).data).map
          (fun i => (midPopulation cfg k (runGens cfg k st0)).getD i []) := rfl
  refine ⟨?_, ?_, ?_⟩
  · rw [hfd]
    exact argsort_sorted _
  · rw [hfd]
    exact sorted_head_le (argsort_sorted _)
  · refine ⟨argsort (midFitness cfg k (runGens cfg k st0)).data, ?_, hpd, hfd⟩
    rw [← hmid]
    exact argsort_perm _

/-- Witness for `generation_sorted_invariant`: a one-parameter,
two-solution configuration with constant-zero fitness; after one
generation the fitness vector is sorted. -/
theorem generation_sorted_invariant_witness :
    (runGens ⟨fun _ => 0, 1, 2, 1, 1, [((0 : ℚ), 1)], fun _ _ => 0, fun _ _ => 0⟩ 1
        ⟨[[1], [2]], ⟨false, [(1 : ℚ), 2]⟩, [], 0, false⟩).fitness.data.Sorted (· ≤ ·) :=
  (generation_sorted_invariant
    ⟨fun _ => 0, 1, 2, 1, 1, [((0 : ℚ), 1)], fun _ _ => 0, fun _ _ => 0⟩
    ⟨[[1], [2]], ⟨false, [(1 : ℚ), 2]⟩, [], 0, false⟩
    (by decide) (by decide) (by decide) (by decide) 0).1

/-- C5: for a start state that is either fresh (`no_data`, counter 0) or a
consistent resume (record length equals the recorded-generations
counter), after each completed generation the record length equals the
prior recorded generations plus the generations completed in this run;
each generation appends exactly one entry — the new
`recorded_generations` index, the row-0 genome and `fitness[0]` — to the
previous record, which is kept as an unchanged prefix (on the first
generation of a fresh run the previous record is the discarded
`np.empty` placeholder, not a recorded entry, and the record becomes the
single new entry). -/
theorem record_growth (cfg : GAConfig) (st0 : GAState)
    (hres : st0.no_data = false → st0.record.length = st0.recorded_generations)
    (hfr : st0.no_data = true → st0.recorded_generations = 0) :
    (∀ k, (runGens cfg (k + 1) st0).record.length
        = st0.recorded_generations + (k + 1))
    ∧ (∀ k, (runGens cfg (k + 1) st0).recorded_generations
        = st0.recorded_generations + (k + 1))
    ∧ (∀ k, (runGens cfg (k + 1) st0).record
        = (if k = 0 ∧ st0.no_data = true then [] else (runGens cfg k st0).record)
          ++ [((runGens cfg (k + 1) st0).recorded_generations : ℚ)
              :: ((runGens cfg (k + 1) st0).population.getD 0 []
                  ++ [(runGens cfg (k + 1) st0).fitness.data.getD 0 0])]) := by
  refine ⟨fun k => (runGens_record_inv cfg st0 hres hfr k).2,
    fun k => (runGens_record_inv cfg st0 hres hfr k).1, ?_⟩
  intro k
  rw [show runGens cfg (k + 1) st0 = generationStep cfg k (runGens cfg k st0) from rfl,
    generationStep_record_eq cfg k (runGens cfg k st0)]
  congr 1
  cases k with
  | zero =>
    cases hnd : st0.no_data with
    | true => simp [runGens, hnd]
    | false => simp [runGens, hnd]
  | succ k =>
    rw [runGens_succ_no_data cfg st0 k]
    simp

/-- Witness for `record_growth`: a resumed two-solution run; after one
generation the record has one entry. -/
theorem record_growth_witness :
    (runGens ⟨fun _ => 0, 1, 2, 1, 1, [((0 : ℚ), 1)], fun _ _ => 0, fun _ _ => 0⟩ 1
        ⟨[[1], [2]], ⟨false, [(1 : ℚ), 2]⟩, [], 0, false⟩).record.length = 0 + (0 + 1) :=
  (record_growth ⟨fun _ => 0, 1, 2, 1, 1, [((0 : ℚ), 1)], fun _ _ => 0, fun _ _ => 0⟩
    ⟨[[1], [2]], ⟨false, [(1 : ℚ), 2]⟩, [], 0, false⟩
    (fun _ => rfl) (fun h => nomatch h)).1 0

/-- C10: from the second generation of a run onward (`runGens (k+1)` with
`k ≥ 0` is a state that has completed at least one generation), breeding
generation `k+2` carries the top `num_parents` population rows and their
fitness values over unchanged (the splice only touches trailing rows and
the scheduler, running with `no_data = false`, only recomputes trailing
fitness entries), so after re-sorting, `fitness[0]` never worsens:
`fitness[0]` of generation `k+2` is `≤` `fitness[0]` of generation
`k+1`. -/
theorem elitism_monotone (cfg : GAConfig) (st0 : GAState)
    (hcpu : 0 < cfg.num_cpu) (hp1 : 1 ≤ cfg.num_parents)
    (hnp : cfg.num_parents ≤ cfg.num_solutions)
    (hpop : st0.population.length = cfg.num_solutions)
    (hfit : st0.fitness.data.length = cfg.num_solutions) :
    ∀ k, (∀ j, j < cfg.num_parents →
        (midPopulation cfg (k + 1) (runGens cfg (k + 1) st0)).getD j []
            = (runGens cfg (k + 1) st0).population.getD j []
        ∧ (midFitness cfg (k + 1) (runGens cfg (k + 1) st0)).data.getD j 0
            = (runGens cfg (k + 1) st0).fitness.data.getD j 0)
      ∧ (runGens cfg (k + 1 + 1) st0).fitness.data.getD 0 0
          ≤ (runGens cfg (k + 1) st0).fitness.data.getD 0 0 := by
  intro k
  have hlen := runGens_lengths cfg st0 hpop hfit (k + 1)
  have hnd : (runGens cfg (k + 1) st0).no_data = false := runGens_succ_no_data cfg st0 k
  have hmplen : (midPopulation cfg (k + 1) (runGens cfg (k + 1) st0)).length
      = cfg.num_solutions := by
    rw [midPopulation, length_setSlice, hlen.1]
  have hpart : ∀ j, j < cfg.num_parents →
      (midPopulation cfg (k + 1) (runGens cfg (k + 1) st0)).getD j []
          = (runGens cfg (k + 1) st0).population.getD j []
      ∧ (midFitness cfg (k + 1) (runGens cfg (k + 1) st0)).data.getD j 0
          = (runGens cfg (k + 1) st0).fitness.data.getD j 0 := by
    intro j hj
    constructor
    · rw [midPopulation, setSlice_getD, if_neg (by omega)]
    · rw [midFitness, hnd,
        solver_data_getD cfg.fitnessFun (runGens cfg (k + 1) st0).fitness
          (midPopulation cfg (k + 1) (runGens cfg (k + 1) st0)) false
          cfg.num_solutions cfg.num_parents cfg.num_cpu hcpu hnp hmplen hlen.2
          j (by omega) 0,
        if_neg (by simp only [Bool.false_eq_true, false_or]; omega)]
  refine ⟨hpart, ?_⟩
  have hmfl : (midFitness cfg (k + 1) (runGens cfg (k + 1) st0)).data.length
      = cfg.num_solutions := by
    rw [midFitness, solver_data_length, hlen.2]
  have hfd : (runGens cfg (k + 1 + 1) st0).fitness.data
      = (argsort (midFitness cfg (k + 1) (runGens cfg (k + 1) st0)).data).map
          (fun i =>
            (midFitness cfg (k + 1) (runGens cfg (k + 1) st0)).data.getD i 0) := rfl
  have h0lt : 0 < (midFitness cfg (k + 1) (runGens cfg (k + 1) st0)).data.length := by
    omega
  have h0mem : (midFitness cfg (k + 1) (runGens cfg (k + 1) st0)).data.getD 0 0
      ∈ (midFitness cfg (k + 1) (runGens cfg (k + 1) st0)).data := by
    rw [List.getD_eq_getElem _ _ h0lt]
    exact List.getElem_mem h0lt
  have hmem2 : (midFitness cfg (k + 1) (runGens cfg (k + 1) st0)).data.getD 0 0
      ∈ (argsort (midFitness cfg (k + 1) (runGens cfg (k + 1) st0)).data).map
          (fun i => (midFitness cfg (k + 1) (runGens cfg (k + 1) st0)).data.getD i 0) :=
    ((argsort_map_perm _).mem_iff).mpr h0mem
  have hle := sorted_head_le (argsort_sorted
    (midFitness cfg (k + 1) (runGens cfg (k + 1) st0)).data) _ hmem2
  rw [hfd]
  refine le_trans hle ?_
  rw [(hpart 0 (by omega)).2]

/-- Witness for `elitism_monotone`: with a constant-zero fitness function
and a two-solution state, `fitness[0]` after generation 2 is at most
`fitness[0]` after generation 1. -/
theorem elitism_monotone_witness :
    (runGens ⟨fun _ => 0, 1, 2, 1, 1, [((0 : ℚ), 1)], fun _ _ => 0, fun _ _ => 0⟩ 2
        ⟨[[1], [2]], ⟨false, [(1 : ℚ), 2]⟩, [], 0, false⟩).fitness.data.getD 0 0
      ≤ (runGens ⟨fun _ => 0, 1, 2, 1, 1, [((0 : ℚ), 1)], fun _ _ => 0, fun _ _ => 0⟩ 1
          ⟨[[1], [2]], ⟨false, [(1 : ℚ), 2]⟩, [], 0, false⟩).fitness.data.getD 0 0 :=
  (elitism_monotone ⟨fun _ => 0, 1, 2, 1, 1, [((0 : ℚ), 1)], fun _ _ => 0, fun _ _ => 0⟩
    ⟨[[1], [2]], ⟨false, [(1 : ℚ), 2]⟩, [], 0, false⟩
    (by decide) (by decide) (by decide) (by decide) (by decide) 0).2

/-- C7, counterexample: on a fresh start with `len(param_ranges) = 1 ≠ 2 =
num_params`, the run does abort before generating a population, but only
after the workbook-creation branch has already written the record-sheet
header cells — the storage-event log of the aborted call contains the
write to cell (1,2) of the Record sheet, refuting "performs no storage
writes". -/
theorem config_mismatch_writes_cex :
    StorageEvent.setCell "Record" 1 2
      ∈ (geneticAlgoSolve (fun _ => 0) "geneticAlgoOutput.xlsx" 5 2 4 2 [((0 : ℚ), 1)]
          (.err .notFound) (fun _ _ => 0) (fun _ _ => 0) (fun _ _ => 0) 1).2 := by
  decide

/-- C7 (amended): on a fresh start with `len(param_ranges) ≠ num_params`
the run stops before generating any population and before running any
generation — the result is the early `return` with exactly the
workbook-creation events in the log — and the output file is never
saved (no `saveAs`/`save` event); however the header-cell writes to the
newly created workbook do occur before the validation, and the failure
is signalled only by the early return (a printed message), not by a
raised error. -/
theorem config_mismatch_aborts (fitnessFun : List ℚ → ℚ) (output_file : String)
    (num_generations num_params num_solutions num_parents : ℕ)
    (param_ranges : List (ℚ × ℚ)) (reason : LoadFailure)
    (initU : ℕ → ℕ → ℚ) (mutCol : ℕ → ℕ → ℕ) (mutU : ℕ → ℕ → ℚ) (num_cpu : ℕ)
    (hmis : param_ranges.length ≠ num_params) :
    geneticAlgoSolve fitnessFun output_file num_generations num_params num_solutions
        num_parents param_ranges (.err reason) initU mutCol mutU num_cpu
      = (none, bootstrapTrace num_params)
    ∧ ∀ e ∈ (geneticAlgoSolve fitnessFun output_file num_generations num_params
          num_solutions num_parents param_ranges (.err reason) initU mutCol mutU
          num_cpu).2,
        (∀ s, e ≠ .saveAs s) ∧ e ≠ .save := by
  have hinit : gaInit (.err reason) num_params num_solutions param_ranges initU
      = (none, bootstrapTrace num_params) := by
    simp only [gaInit]
    rw [if_pos hmis]
  have hmain : geneticAlgoSolve fitnessFun output_file num_generations num_params
      num_solutions num_parents param_ranges (.err reason) initU mutCol mutU num_cpu
      = (none, bootstrapTrace num_params) := by
    simp only [geneticAlgoSolve, hinit]
  refine ⟨hmain, ?_⟩
  intro e he
  rw [hmain] at he
  simp only [bootstrapTrace, List.mem_cons, List.not_mem_nil, or_false] at he
  rcases he with rfl | rfl | rfl | rfl | rfl | rfl | rfl | rfl | rfl | rfl <;>
    exact ⟨fun s h => (nomatch h), fun h => nomatch h⟩

/-- Witness for `config_mismatch_aborts` at a concrete mismatched
configuration (`num_params = 2`, one range pair). -/
theorem config_mismatch_aborts_witness :
    geneticAlgoSolve (fun _ => 0) "geneticAlgoOutput.xlsx" 5 2 4 2 [((0 : ℚ), 1)]
        (.err .notFound) (fun _ _ => 0) (fun _ _ => 0) (fun _ _ => 0) 1
      = (none, bootstrapTrace 2) :=
  (config_mismatch_aborts (fun _ => 0) "geneticAlgoOutput.xlsx" 5 2 4 2 [((0 : ℚ), 1)]
    .notFound (fun _ _ => 0) (fun _ _ => 0) (fun _ _ => 0) 1 (by decide)).1

/-- C8: the bare `except:` at line 133 cannot distinguish why the load
failed — a corrupt checkpoint takes exactly the same path as an absent
one, producing a bootstrap state (`no_data = true`, fresh integer-dtype
zero fitness vector) instead of propagating an error, which is the
latent bug the claim (and §7/§9 of the specification) describes. -/
theorem corrupt_load_bootstraps :
    (gaInit (.err .corrupt) 2 2 [((0 : ℚ), 1), (0, 1)] (fun _ _ => 0))
        = (gaInit (.err .notFound) 2 2 [((0 : ℚ), 1), (0, 1)] (fun _ _ => 0))
    ∧ ((gaInit (.err .corrupt) 2 2 [((0 : ℚ), 1), (0, 1)] (fun _ _ => 0)).1.map
        (fun st => (st.no_data, st.fitness.isInt, st.fitness.data)))
      = some (true, true, [0, 0]) := by
  exact ⟨rfl, rfl⟩

end GeneticAlgo
